import Mathlib

/-!
# Verification of the arXiv API client library

A shallow embedding of the request-construction and response-decoding
pipeline of the arXiv client (files `client.go` and `eprints.go`), with
theorems checking the specified behaviour.

Go strings are byte sequences; they are modelled as `List Nat` with every
element below 256.  Go `int` values are modelled as `Int` (the claims only
involve comparisons and decimal rendering, which agree with 64-bit `int`
on its whole range).  The HTTP transport and the XML decoder are external
collaborators: service operations take a `respond` function mapping the
constructed request URL to the transport/decode outcome.
-/

namespace Arxiv

/-- A Go string: a sequence of bytes. -/
abbrev GoStr := List Nat

/-- Byte sequence of an ASCII literal (used to transcribe Go string literals). -/
def goStr (s : String) : GoStr := s.toList.map Char.toNat

/-- Well-formedness of the byte-sequence model: every element is a byte. -/
def ByteValid (s : GoStr) : Prop := ∀ b ∈ s, b < 256

instance : DecidablePred ByteValid := fun s =>
  inferInstanceAs (Decidable (∀ b ∈ s, b < 256))

/-! ## QueryOptions and its defaulting accessors (`client.go`) -/

/-- `QueryOptions` from `client.go`: pagination options.  The `url` field
tags (wire key, `omitempty`) are modelled in `queryValues` below. -/
structure QueryOptions where
  MaxResults : Int := 0
  Start : Int := 0
  SortBy : GoStr := []
  SortOrder : GoStr := []
deriving DecidableEq

/-- `DefaultMaxResults` from `client.go`. -/
def DefaultMaxResults : Int := 1000

/-- `DefaultSortBy` from `client.go`. -/
def DefaultSortBy : GoStr := goStr "relevance"

/-- `DefaultSortOrder` from `client.go`. -/
def DefaultSortOrder : GoStr := goStr "descending"

/-- `QueryOptions.MaxResultsOrDefault` from `client.go`. -/
def QueryOptions.MaxResultsOrDefault (o : QueryOptions) : Int :=
  if o.MaxResults < 1 then DefaultMaxResults else o.MaxResults

/-- `QueryOptions.StartOrDefault` from `client.go`. -/
def QueryOptions.StartOrDefault (o : QueryOptions) : Int :=
  if o.Start < 0 then 0 else o.Start

/-- `QueryOptions.SortByOrDefault` from `client.go`. -/
def QueryOptions.SortByOrDefault (o : QueryOptions) : GoStr :=
  if o.SortBy ≠ goStr "relevance" ∧ o.SortBy ≠ goStr "lastUpdatedDate" ∧
      o.SortBy ≠ goStr "submittedDate" then
    DefaultSortBy
  else o.SortBy

/-- `QueryOptions.SortOrderOrDefault` from `client.go`. -/
def QueryOptions.SortOrderOrDefault (o : QueryOptions) : GoStr :=
  if o.SortOrder ≠ goStr "descending" ∧ o.SortOrder ≠ goStr "ascending" then
    DefaultSortOrder
  else o.SortOrder

/-! ## EprintListOptions (`eprints.go`)

Go struct embedding (`QueryOptions` as an anonymous field) is modelled
with `extends`: the embedded fields are reachable by direct projection,
exactly as in Go. -/

/-- `EprintListOptions` from `eprints.go`.  Field tags:
`Search` → `search_query,omitempty`; `IDList` → `id_list,omitempty,comma`;
the embedded `QueryOptions` fields keep their own tags. -/
structure EprintListOptions extends QueryOptions where
  Search : GoStr := []
  IDList : List GoStr := []
deriving DecidableEq

/-! ## Decimal rendering of Go ints

`go-querystring` renders an `int` field with `fmt.Sprint`, i.e. decimal
digits with a leading `-` for negative values.  The digit emitter is kept
structurally recursive by an explicit fuel argument so that it evaluates
inside the kernel; `natToDigits_eq` below recovers the natural recursion. -/

/-- Digit bytes of `n` in base 10, most significant first; correct whenever
`n ≤ fuel` or `n < 10` (see `natToDigitsAux_congr`). -/
def natToDigitsAux : Nat → Nat → GoStr
  | 0, n => [48 + n % 10]
  | fuel + 1, n =>
    if n < 10 then [48 + n] else natToDigitsAux fuel (n / 10) ++ [48 + n % 10]

/-- Decimal digit bytes of a natural number, most significant first. -/
def natToDigits (n : Nat) : GoStr := natToDigitsAux n n

/-- Decimal rendering of a Go `int` (as produced by `fmt.Sprint`). -/
def intToGoStr (i : Int) : GoStr :=
  if i < 0 then 45 :: natToDigits i.natAbs else natToDigits i.toNat

/-- Value of a decimal digit string (the accumulator loop of `strconv`). -/
def digitsVal (s : GoStr) : Nat := s.foldl (fun acc b => acc * 10 + (b - 48)) 0

/-- Reading an optionally `-`-signed decimal string back to an integer. -/
def goStrToInt (s : GoStr) : Int :=
  match s with
  | [] => 0
  | b :: rest => if b = 45 then -(digitsVal rest : Int) else (digitsVal (b :: rest) : Int)

/-! ## URL query escaping (`net/url`)

`url.Values.Encode` escapes every key and value with `url.QueryEscape`:
bytes that are ASCII letters, digits, or one of `-` `_` `.` `~` pass
through, a space becomes `+`, and every other byte becomes `%` followed
by two uppercase hex digits. -/

/-- Bytes `url.QueryEscape` leaves unescaped. -/
def isUnreservedByte (b : Nat) : Bool :=
  (48 ≤ b && b ≤ 57) || (65 ≤ b && b ≤ 90) || (97 ≤ b && b ≤ 122) ||
    b == 45 || b == 95 || b == 46 || b == 126

/-- Uppercase hex digit byte for a value below 16 (`"0123456789ABCDEF"`). -/
def hexDigit (d : Nat) : Nat := if d < 10 then 48 + d else 55 + d

/-- Escaping of a single byte under `url.QueryEscape`. -/
def escByte (b : Nat) : GoStr :=
  if isUnreservedByte b then [b]
  else if b = 32 then [43]
  else [37, hexDigit (b / 16), hexDigit (b % 16)]

/-- `url.QueryEscape` over a whole string. -/
def queryEscape (s : GoStr) : GoStr := (s.map escByte).flatten

/-- Read a hex digit byte (either case, as `url.QueryUnescape` accepts). -/
def fromHexDigit (b : Nat) : Option Nat :=
  if 48 ≤ b ∧ b ≤ 57 then some (b - 48)
  else if 65 ≤ b ∧ b ≤ 70 then some (b - 55)
  else if 97 ≤ b ∧ b ≤ 102 then some (b - 87)
  else none

/-- `url.QueryUnescape`: `%XX` decodes to the byte `XX`, `+` decodes to a
space, anything else passes through; a `%` not followed by two hex digits
is an error. -/
def queryUnescape : GoStr → Option GoStr
  | [] => some []
  | b :: rest =>
    if b = 37 then
      match rest with
      | h1 :: h2 :: rest2 =>
        match fromHexDigit h1, fromHexDigit h2 with
        | some d1, some d2 => (queryUnescape rest2).map (fun t => (16 * d1 + d2) :: t)
        | _, _ => none
      | _ => none
    else if b = 43 then (queryUnescape rest).map (fun t => 32 :: t)
    else (queryUnescape rest).map (fun t => b :: t)

/-! ## Query encoding of `EprintListOptions`

`addOptions` calls `query.Values` (reflection over the `url` tags, with
`omitempty` skipping zero values and `comma` joining the id list) and then
`url.Values.Encode`, which emits `key=value` pairs sorted by key and
joined with `&`.  The six wire keys sort as
`id_list < max_results < search_query < sortBy < sortOrder < start`, so
`queryValues` lists the present pairs directly in that order. -/

/-- `strings.Join(l, ",")` — the `comma` tag option on `id_list`. -/
def commaJoin : List GoStr → GoStr
  | [] => []
  | [x] => x
  | x :: y :: xs => x ++ 44 :: commaJoin (y :: xs)

/-- The key/value pairs `query.Values` produces for an `EprintListOptions`,
in the sorted key order `url.Values.Encode` emits them.  `omitempty` drops
zero ints, empty strings, and the empty id list. -/
def queryValues (o : EprintListOptions) : List (GoStr × GoStr) :=
  (if o.IDList = [] then [] else [(goStr "id_list", commaJoin o.IDList)]) ++
  (if o.MaxResults = 0 then [] else [(goStr "max_results", intToGoStr o.MaxResults)]) ++
  (if o.Search = [] then [] else [(goStr "search_query", o.Search)]) ++
  (if o.SortBy = [] then [] else [(goStr "sortBy", o.SortBy)]) ++
  (if o.SortOrder = [] then [] else [(goStr "sortOrder", o.SortOrder)]) ++
  (if o.Start = 0 then [] else [(goStr "start", intToGoStr o.Start)])

/-- One `key=value` unit of `url.Values.Encode`. -/
def encodePair (p : GoStr × GoStr) : GoStr :=
  queryEscape p.1 ++ 61 :: queryEscape p.2

/-- `strings.Join(parts, "&")`. -/
def ampJoin : List GoStr → GoStr
  | [] => []
  | [x] => x
  | x :: y :: xs => x ++ 38 :: ampJoin (y :: xs)

/-- `url.Values.Encode` on the pairs of `queryValues`. -/
def encodeValues (ps : List (GoStr × GoStr)) : GoStr := ampJoin (ps.map encodePair)

/-- The raw query string `addOptions` installs for an options value. -/
def encodeOptions (o : EprintListOptions) : GoStr := encodeValues (queryValues o)

/-- First value under a key, as a `url.Values` lookup on the pair list. -/
def lookupVal (k : GoStr) : List (GoStr × GoStr) → Option GoStr
  | [] => none
  | p :: ps => if p.1 = k then some p.2 else lookupVal k ps

/-! ## Query-string parsing (`url.ParseQuery`)

`ParseQuery` walks the string splitting at `&` (and `;` in the Go release
this library targets), skips empty segments, cuts each segment at its
first `=` (a missing `=` leaves an empty value), and unescapes key and
value.  An unescape failure makes the call return an error. -/

/-- Split at every `&` (38) or `;` (59), keeping empty segments. -/
def splitSegs : GoStr → List GoStr
  | [] => [[]]
  | b :: rest =>
    if b = 38 ∨ b = 59 then [] :: splitSegs rest
    else
      match splitSegs rest with
      | seg :: segs => (b :: seg) :: segs
      | [] => [[b]]

/-- Cut a segment at its first `=` (61); without one the value is empty. -/
def cutEq : GoStr → GoStr × GoStr
  | [] => ([], [])
  | b :: rest =>
    if b = 61 then ([], rest)
    else
      let kv := cutEq rest
      (b :: kv.1, kv.2)

/-- Decode one `key=value` segment. -/
def parseSeg (seg : GoStr) : Option (GoStr × GoStr) :=
  let kv := cutEq seg
  match queryUnescape kv.1, queryUnescape kv.2 with
  | some k, some v => some (k, v)
  | _, _ => none

/-- Decode a list of segments, failing when any segment fails. -/
def parseSegs : List GoStr → Option (List (GoStr × GoStr))
  | [] => some []
  | seg :: segs =>
    match parseSeg seg, parseSegs segs with
    | some p, some ps => some (p :: ps)
    | _, _ => none

/-- `url.ParseQuery`, observed as the list of decoded pairs in document
order (`none` when any segment fails to unescape). -/
def parseQuery (s : GoStr) : Option (List (GoStr × GoStr)) :=
  parseSegs ((splitSegs s).filter (fun seg => seg ≠ []))

/-! ## SearchOptions (`eprints.go`)

`SearchOptions.String` builds a Go map from the five named fields and
iterates it; Go map iteration order is unspecified, so the iteration is a
parameter: any permutation of the five (key, value) entries. -/

/-- `SearchOptions` from `eprints.go`. -/
structure SearchOptions where
  Title : GoStr := []
  Author : GoStr := []
  Abstract : GoStr := []
  JournalReference : GoStr := []
  Category : GoStr := []
  All : GoStr := []
deriving DecidableEq

/-- The entries `SearchOptions.String` stores in its map `m` (the map has
these five distinct keys; iteration visits each exactly once). -/
def searchPairs (o : SearchOptions) : List (GoStr × GoStr) :=
  [(goStr "ti", o.Title), (goStr "au", o.Author), (goStr "abs", o.Abstract),
   (goStr "jr", o.JournalReference), (goStr "cat", o.Category)]

/-- `fmt.Sprintf("%s:%s", k, v)`. -/
def formatClause (p : GoStr × GoStr) : GoStr := p.1 ++ 58 :: p.2

/-- `strings.Join(q, " AND ")`. -/
def andJoin : List GoStr → GoStr
  | [] => []
  | [x] => x
  | x :: y :: xs => x ++ goStr " AND " ++ andJoin (y :: xs)

/-- `SearchOptions.String` from `eprints.go`, with the map iteration order
given by `iter` (any permutation of `searchPairs o`): when `All` is
non-empty the result is `all:` + `All`; otherwise the non-empty clauses
are formatted and joined with `" AND "`. -/
def searchString (o : SearchOptions) (iter : List (GoStr × GoStr)) : GoStr :=
  if o.All ≠ [] then goStr "all:" ++ o.All
  else andJoin ((iter.filter (fun p => p.2 ≠ [])).map formatClause)

/-! ## Feed and e-print records (`eprints.go`)

`time.Time` fields are modelled as `Int` (Unix nanoseconds); the claims
only pass them through.  Go's `[]*Eprint` is modelled as `List Eprint`. -/

/-- `Author` from `eprints.go`. -/
structure Author where
  Name : GoStr := []
deriving DecidableEq

/-- `Category` from `eprints.go`. -/
structure Category where
  Term : GoStr := []
deriving DecidableEq

/-- `Link` from `eprints.go` (the Go field `Type` is rendered `Type_`). -/
structure Link where
  Rel : GoStr := []
  Href : GoStr := []
  Type_ : GoStr := []
  Title : GoStr := []
deriving DecidableEq

/-- `Eprint` from `eprints.go`. -/
structure Eprint where
  ID : GoStr := []
  Title : GoStr := []
  Authors : List Author := []
  Links : List Link := []
  Categories : List Category := []
  Published : Int := 0
  Updated : Int := 0
  Abstract : GoStr := []
deriving DecidableEq

/-- `EprintsFeed` from `eprints.go` (the `XMLName` tag is metadata for the
decoder and carries no data). -/
structure EprintsFeed where
  Title : GoStr := []
  ID : GoStr := []
  Updated : GoStr := []
  Link : List Link := []
  Entry : List Eprint := []
deriving DecidableEq

/-! ## Client URL building and the e-print service -/

/-- Error taxonomy: `ErrEprintNotFound` from `eprints.go`, plus the
wrapped transport/decode error of `Client.do` and URL-construction
failures, carried with their message bytes. -/
inductive ArxivError where
  | eprintNotFound
  | responseRead (detail : GoStr)
  | invalidURL (detail : GoStr)
deriving DecidableEq

/-- The part of a `url.URL` this client populates. -/
structure UrlModel where
  Path : GoStr := []
  RawQuery : GoStr := []
deriving DecidableEq

/-- `addOptions` from `client.go`: a nil options pointer returns before
encoding, leaving the URL untouched; otherwise the encoded query string is
installed.  (`query.Values` cannot fail on `EprintListOptions`, so the
error branch is unreachable for this struct.) -/
def addOptions (u : UrlModel) (opt : Option EprintListOptions) :
    Except ArxivError UrlModel :=
  match opt with
  | none => .ok u
  | some o => .ok { u with RawQuery := encodeOptions o }

/-- `Client.url` from `client.go`: a URL with the route name as path; a
nil options interface skips `addOptions` entirely (a nil pointer inside a
non-nil interface is caught inside `addOptions` instead, with the same
resulting URL). -/
def clientUrl (apiRouteName : GoStr) (opt : Option EprintListOptions) :
    Except ArxivError UrlModel :=
  match opt with
  | none => .ok { Path := apiRouteName }
  | some _ => addOptions { Path := apiRouteName } opt

/-- The URL `clientUrl` produces (it never fails; see `clientUrl_eq_urlFor`). -/
def urlFor (apiRouteName : GoStr) (opt : Option EprintListOptions) : UrlModel :=
  { Path := apiRouteName,
    RawQuery := match opt with | none => [] | some o => encodeOptions o }

/-- The options value `eprintsService.Get` builds: a zero
`EprintListOptions` whose `IDList` gets the single id appended. -/
def getOptions (id : GoStr) : EprintListOptions :=
  let opt : EprintListOptions := {}
  { opt with IDList := opt.IDList ++ [id] }

/-- `eprintsService.Get` from `eprints.go`.  `respond` stands for the
externally supplied transport and XML decoder (`newRequest` + `do`):
it maps the constructed URL to either a decoded feed or an error. -/
def eprintsGet (respond : UrlModel → Except ArxivError EprintsFeed)
    (id : GoStr) : Except ArxivError Eprint :=
  match clientUrl (goStr "query") (some (getOptions id)) with
  | .error e => .error e
  | .ok url =>
    match respond url with
    | .error e => .error e
    | .ok feed =>
      match feed.Entry with
      | [] => .error .eprintNotFound
      | e :: _ => .ok e

/-- `eprintsService.List` from `eprints.go` (the options pointer may be
nil).  The diagnostic `fmt.Printf` is an output side effect with no
bearing on the result and is not modelled. -/
def eprintsList (respond : UrlModel → Except ArxivError EprintsFeed)
    (opt : Option EprintListOptions) : Except ArxivError (List Eprint) :=
  match clientUrl (goStr "query") opt with
  | .error e => .error e
  | .ok url =>
    match respond url with
    | .error e => .error e
    | .ok feed =>
      match feed.Entry with
      | [] => .error .eprintNotFound
      | _ :: _ => .ok feed.Entry

/-! ## Static lookup tables (`eprints.go`)

The Go maps `Subjects` and `Subcategories` have fixed literal entries;
they are modelled as association lists in source order. -/

/-- `Subjects` from `eprints.go`. -/
def Subjects : List (GoStr × GoStr) :=
  [(goStr "physics", goStr "Physics"),
   (goStr "math", goStr "Mathematics"),
   (goStr "cs", goStr "Computer Science"),
   (goStr "q-bio", goStr "Quantitative Biology"),
   (goStr "q-fin", goStr "Quantitative Finance"),
   (goStr "stat", goStr "Statistics"),
   (goStr "eess", goStr "Electrical Engineering and Systems Science"),
   (goStr "econ", goStr "Economics")]

/-- `Subcategories` from `eprints.go`. -/
def Subcategories : List (GoStr × List GoStr) :=
  [(goStr "physics",
    [goStr "acc-ph", goStr "ao-ph", goStr "app-ph", goStr "atm-clus",
     goStr "atom-ph", goStr "bio-ph", goStr "chem-ph", goStr "class-ph",
     goStr "comp-ph", goStr "data-an", goStr "ed-ph", goStr "flu-dyn",
     goStr "gen-ph", goStr "geo-ph", goStr "hist-ph", goStr "ins-det",
     goStr "med-ph", goStr "optics", goStr "plasm-ph", goStr "pop-ph",
     goStr "soc-ph", goStr "space-ph"]),
   (goStr "math",
    [goStr "AC", goStr "AG", goStr "AP", goStr "AT", goStr "CA", goStr "CO",
     goStr "CT", goStr "CV", goStr "DG", goStr "DS", goStr "FA", goStr "GM",
     goStr "GN", goStr "GR", goStr "GT", goStr "HO", goStr "IT", goStr "KT",
     goStr "LO", goStr "MG", goStr "MP", goStr "NA", goStr "NT", goStr "OA",
     goStr "OC", goStr "PR", goStr "QA", goStr "RA", goStr "RT", goStr "SG",
     goStr "SP", goStr "ST"]),
   (goStr "cs",
    [goStr "AI", goStr "AR", goStr "CC", goStr "CE", goStr "CG", goStr "CL",
     goStr "CR", goStr "CV", goStr "CY", goStr "DB", goStr "DC", goStr "DL",
     goStr "DM", goStr "DS", goStr "ET", goStr "FL", goStr "GL", goStr "GR",
     goStr "GT", goStr "HC", goStr "IR", goStr "IT", goStr "LG", goStr "LO",
     goStr "MA", goStr "MM", goStr "MS", goStr "NA", goStr "NE", goStr "NI",
     goStr "OH", goStr "OS", goStr "PF", goStr "PL", goStr "RO", goStr "SC",
     goStr "SD", goStr "SE", goStr "SI", goStr "SY"]),
   (goStr "q-bio",
    [goStr "BM", goStr "CB", goStr "GN", goStr "MN", goStr "NC", goStr "OT",
     goStr "PE", goStr "QM", goStr "SC", goStr "TO"]),
   (goStr "q-fin",
    [goStr "CP", goStr "EC", goStr "GN", goStr "MF", goStr "PM", goStr "PR",
     goStr "RM", goStr "ST", goStr "TR"]),
   (goStr "stat",
    [goStr "AP", goStr "CO", goStr "ME", goStr "ML", goStr "OT", goStr "TH"]),
   (goStr "eess", [goStr "AS", goStr "IV", goStr "SP"]),
   (goStr "econ", [goStr "EM"])]

/-- The spec's example entry: id `"123"`, title `"Test"`, one author
`"A. Author"` (used to instantiate the `Get` theorems). -/
def testEprint123 : Eprint :=
  { ID := goStr "123", Title := goStr "Test",
    Authors := [{ Name := goStr "A. Author" }] }

/-- A feed whose single entry is `testEprint123`. -/
def testFeed123 : EprintsFeed := { Entry := [testEprint123] }

example : goStr "relevance" = [114, 101, 108, 101, 118, 97, 110, 99, 101] := by decide

example : (QueryOptions.mk 0 (-3) [] []).StartOrDefault = 0 := by decide

example : natToDigits 1000 = goStr "1000" := by decide

example : intToGoStr (-5) = goStr "-5" := by decide

example : queryEscape (goStr "a b&c") = goStr "a+b%26c" := by decide

example :
    encodeOptions { IDList := [goStr "123"] } = goStr "id_list=123" := by decide

example :
    encodeOptions { MaxResults := -5 } = goStr "max_results=-5" := by decide

example :
    parseQuery (goStr "id_list=123&max_results=20") =
      some [(goStr "id_list", goStr "123"), (goStr "max_results", goStr "20")] := by
  decide

example :
    searchString { All := goStr "quantum computing" } (searchPairs {}) =
      goStr "all:quantum computing" := by decide

example :
    searchString { Title := goStr "foo", Author := goStr "bar" }
        (searchPairs { Title := goStr "foo", Author := goStr "bar" }) =
      goStr "ti:foo AND au:bar" := by decide

/-! ## Helper lemmas -/

/-- A list permuting a two-element list is one of its two arrangements. -/
theorem perm_pair_cases {α : Type} (l : List α) (a b : α)
    (h : l.Perm [a, b]) : l = [a, b] ∨ l = [b, a] := by
  have hlen : l.length = 2 := by simpa using h.length_eq
  cases l with
  | nil => simp at hlen
  | cons x t =>
    cases t with
    | nil => simp at hlen
    | cons y t2 =>
      cases t2 with
      | cons z t3 => simp at hlen
      | nil =>
        have hx : x = a ∨ x = b := by
          have := h.mem_iff.mp (List.mem_cons_self x [y])
          simpa using this
        rcases hx with hx | hx
        · have h1 : ([y]).Perm [b] := by
            rw [hx] at h; exact h.cons_inv
          have hy : y = b := by simpa [List.perm_singleton] using h1
          exact Or.inl (by rw [hx, hy])
        · have h2 : ([y]).Perm [a] := by
            rw [hx] at h
            exact (h.trans (List.Perm.swap b a [])).cons_inv
          have hy : y = a := by simpa [List.perm_singleton] using h2
          exact Or.inr (by rw [hx, hy])

/-- `natToDigitsAux` does not depend on the fuel once it covers `n`. -/
theorem natToDigitsAux_congr (f1 : Nat) : ∀ f2 n, n ≤ f1 → n ≤ f2 →
    natToDigitsAux f1 n = natToDigitsAux f2 n := by
  induction f1 with
  | zero =>
    intro f2 n h1 _
    have hn : n = 0 := by omega
    subst hn
    cases f2 <;> simp [natToDigitsAux]
  | succ f ih =>
    intro f2 n h1 h2
    cases f2 with
    | zero =>
      have hn : n = 0 := by omega
      subst hn
      simp [natToDigitsAux]
    | succ f2' =>
      simp only [natToDigitsAux]
      by_cases h : n < 10
      · simp [h]
      · simp only [h, if_false]
        rw [ih f2' (n / 10) (by omega) (by omega)]

/-- The natural recursion satisfied by `natToDigits`. -/
theorem natToDigits_eq (n : Nat) :
    natToDigits n =
      if n < 10 then [48 + n] else natToDigits (n / 10) ++ [48 + n % 10] := by
  by_cases h : n < 10
  · rw [if_pos h]
    cases n with
    | zero => simp [natToDigits, natToDigitsAux]
    | succ m => simp [natToDigits, natToDigitsAux, h]
  · rw [if_neg h]
    cases n with
    | zero => omega
    | succ m =>
      show natToDigitsAux (m + 1) (m + 1) = _
      simp only [natToDigitsAux, h, if_false]
      rw [natToDigitsAux_congr m ((m + 1) / 10) ((m + 1) / 10) (by omega) (by omega)]
      rfl

/-- Every byte of `natToDigits n` is an ASCII digit. -/
theorem natToDigits_bytes (n : Nat) : ∀ b ∈ natToDigits n, 48 ≤ b ∧ b ≤ 57 := by
  induction n using Nat.strong_induction_on with
  | _ n ih =>
    rw [natToDigits_eq n]
    by_cases h : n < 10
    · simp only [h, if_true]
      intro b hb
      simp at hb
      omega
    · rw [if_neg h]
      intro b hb
      rcases List.mem_append.mp hb with hb | hb
      · exact ih (n / 10) (by omega) b hb
      · simp at hb; omega

/-- `natToDigits` never returns the empty string. -/
theorem natToDigits_ne_nil (n : Nat) : natToDigits n ≠ [] := by
  rw [natToDigits_eq n]; split <;> simp

/-- Folding one more digit byte. -/
theorem digitsVal_append (s : GoStr) (b : Nat) :
    digitsVal (s ++ [b]) = digitsVal s * 10 + (b - 48) := by
  simp [digitsVal, List.foldl_append]

/-- Reading the rendered digits recovers the number. -/
theorem digitsVal_natToDigits (n : Nat) : digitsVal (natToDigits n) = n := by
  induction n using Nat.strong_induction_on with
  | _ n ih =>
    rw [natToDigits_eq n]
    by_cases h : n < 10
    · rw [if_pos h]
      simp [digitsVal]
    · rw [if_neg h, digitsVal_append, ih (n / 10) (by omega)]
      omega

/-- Reading the rendered decimal recovers the integer. -/
theorem goStrToInt_intToGoStr (i : Int) : goStrToInt (intToGoStr i) = i := by
  rw [intToGoStr]
  by_cases h : i < 0
  · rw [if_pos h]
    simp only [goStrToInt, if_true]
    rw [digitsVal_natToDigits]
    omega
  · rw [if_neg h]
    obtain ⟨b, rest, hbr⟩ : ∃ b rest, natToDigits i.toNat = b :: rest := by
      cases hh : natToDigits i.toNat with
      | nil => exact absurd hh (natToDigits_ne_nil _)
      | cons b rest => exact ⟨b, rest, rfl⟩
    have hb := natToDigits_bytes i.toNat b (hbr ▸ List.mem_cons_self b rest)
    rw [hbr]
    simp only [goStrToInt]
    rw [if_neg (by omega), ← hbr, digitsVal_natToDigits]
    omega

/-- Unreserved bytes are none of the bytes with special meaning in a
query string (`%`, `&`, `+`, `;`, `=`). -/
theorem isUnreservedByte_props (b : Nat) (h : isUnreservedByte b = true) :
    b ≠ 37 ∧ b ≠ 38 ∧ b ≠ 43 ∧ b ≠ 59 ∧ b ≠ 61 := by
  simp [isUnreservedByte] at h
  omega

/-- `fromHexDigit` inverts `hexDigit` below 16. -/
theorem fromHexDigit_hexDigit (d : Nat) (h : d < 16) :
    fromHexDigit (hexDigit d) = some d := by
  unfold hexDigit fromHexDigit
  by_cases h10 : d < 10
  · rw [if_pos h10, if_pos (by omega)]
    congr 1
    omega
  · rw [if_neg h10, if_neg (by omega), if_pos (by omega)]
    congr 1
    omega

/-- The escaping of a byte contains no separator byte (`&`, `;`, `=`)
and only bytes. -/
theorem escByte_mem (b : Nat) (hb : b < 256) :
    ∀ c ∈ escByte b, c < 256 ∧ c ≠ 38 ∧ c ≠ 59 ∧ c ≠ 61 := by
  intro c hc
  unfold escByte at hc
  split at hc
  · rename_i hu
    simp at hc
    rw [hc]
    have h5 := isUnreservedByte_props b hu
    exact ⟨hb, h5.2.1, h5.2.2.2.1, h5.2.2.2.2⟩
  · split at hc
    · simp at hc; omega
    · have h16 : b / 16 < 16 := by omega
      have h16b : b % 16 < 16 := by omega
      simp at hc
      rcases hc with hc | hc | hc
      · omega
      · unfold hexDigit at hc; split at hc <;> omega
      · unfold hexDigit at hc; split at hc <;> omega

/-- The escaping of a byte-valid string contains no separator byte. -/
theorem queryEscape_mem (s : GoStr) (hv : ByteValid s) :
    ∀ c ∈ queryEscape s, c < 256 ∧ c ≠ 38 ∧ c ≠ 59 ∧ c ≠ 61 := by
  intro c hc
  unfold queryEscape at hc
  rw [List.mem_flatten] at hc
  obtain ⟨l, hl, hcl⟩ := hc
  rw [List.mem_map] at hl
  obtain ⟨b, hb, rfl⟩ := hl
  exact escByte_mem b (hv b hb) c hcl

/-- `url.QueryUnescape` inverts `url.QueryEscape`. -/
theorem queryUnescape_queryEscape (s : GoStr) (hv : ByteValid s) :
    queryUnescape (queryEscape s) = some s := by
  induction s with
  | nil => rfl
  | cons b rest ih =>
    have hb : b < 256 := hv b (List.mem_cons_self b rest)
    have hrest : ByteValid rest := fun c hc => hv c (List.mem_cons_of_mem b hc)
    have hq : queryEscape (b :: rest) = escByte b ++ queryEscape rest := by
      simp [queryEscape]
    rw [hq]
    unfold escByte
    split
    · rename_i hu
      have h5 := isUnreservedByte_props b hu
      rw [List.singleton_append, queryUnescape.eq_def]
      simp only []
      rw [if_neg h5.1, if_neg h5.2.2.1, ih hrest]
      rfl
    · split
      · rename_i hs
        rw [List.singleton_append, queryUnescape.eq_def]
        simp only [if_true]
        rw [ih hrest, hs]
        rfl
      · rw [List.cons_append, List.cons_append, List.cons_append, List.nil_append,
          queryUnescape.eq_def]
        simp only [fromHexDigit_hexDigit (b / 16) (by omega),
          fromHexDigit_hexDigit (b % 16) (by omega), if_true, ih hrest]
        have hbeq : 16 * (b / 16) + b % 16 = b := by omega
        simp [hbeq]

/-- A separator-free string is a single segment. -/
theorem splitSegs_sepfree (s : GoStr) (h : ∀ c ∈ s, ¬(c = 38 ∨ c = 59)) :
    splitSegs s = [s] := by
  induction s with
  | nil => rfl
  | cons b rest ih =>
    simp only [splitSegs]
    rw [if_neg (h b (List.mem_cons_self b rest)),
      ih (fun c hc => h c (List.mem_cons_of_mem b hc))]

/-- Splitting after a separator-free prefix peels it off as one segment. -/
theorem splitSegs_append_sep (s t : GoStr) (h : ∀ c ∈ s, ¬(c = 38 ∨ c = 59)) :
    splitSegs (s ++ 38 :: t) = s :: splitSegs t := by
  induction s with
  | nil =>
    rw [List.nil_append, splitSegs.eq_def]
    simp
  | cons b rest ih =>
    rw [List.cons_append]
    simp only [splitSegs]
    rw [if_neg (h b (List.mem_cons_self b rest)),
      ih (fun c hc => h c (List.mem_cons_of_mem b hc))]

/-- Cutting a segment whose key part has no `=` byte. -/
theorem cutEq_append (s t : GoStr) (h : ∀ c ∈ s, c ≠ 61) :
    cutEq (s ++ 61 :: t) = (s, t) := by
  induction s with
  | nil =>
    rw [List.nil_append, cutEq.eq_def]
    simp
  | cons b rest ih =>
    rw [List.cons_append]
    simp only [cutEq]
    rw [if_neg (h b (List.mem_cons_self b rest)),
      ih (fun c hc => h c (List.mem_cons_of_mem b hc))]

/-- An encoded pair is never the empty segment. -/
theorem encodePair_ne_nil (p : GoStr × GoStr) : encodePair p ≠ [] := by
  unfold encodePair
  intro h
  simp at h

/-- An encoded pair contains no segment separator. -/
theorem encodePair_sepfree (p : GoStr × GoStr) (h1 : ByteValid p.1)
    (h2 : ByteValid p.2) : ∀ c ∈ encodePair p, ¬(c = 38 ∨ c = 59) := by
  intro c hc
  unfold encodePair at hc
  rw [List.mem_append] at hc
  rcases hc with hc | hc
  · have := queryEscape_mem p.1 h1 c hc; omega
  · rw [List.mem_cons] at hc
    rcases hc with rfl | hc
    · omega
    · have := queryEscape_mem p.2 h2 c hc; omega

/-- Decoding an encoded pair recovers it. -/
theorem parseSeg_encodePair (p : GoStr × GoStr) (h1 : ByteValid p.1)
    (h2 : ByteValid p.2) : parseSeg (encodePair p) = some p := by
  unfold parseSeg encodePair
  rw [cutEq_append _ _ (fun c hc => (queryEscape_mem p.1 h1 c hc).2.2.2)]
  simp [queryUnescape_queryEscape p.1 h1, queryUnescape_queryEscape p.2 h2]

/-- `ParseQuery` inverts `url.Values.Encode` on byte-valid pairs. -/
theorem parseQuery_encodeValues (ps : List (GoStr × GoStr))
    (h : ∀ p ∈ ps, ByteValid p.1 ∧ ByteValid p.2) :
    parseQuery (encodeValues ps) = some ps := by
  induction ps with
  | nil => rfl
  | cons p rest ih =>
    have hp := h p (List.mem_cons_self p rest)
    have hsep := encodePair_sepfree p hp.1 hp.2
    cases rest with
    | nil =>
      unfold parseQuery encodeValues
      simp only [List.map_cons, List.map_nil, ampJoin]
      rw [splitSegs_sepfree _ hsep]
      rw [List.filter_cons_of_pos (by simp [encodePair_ne_nil p]),
        List.filter_nil]
      simp [parseSegs, parseSeg_encodePair p hp.1 hp.2]
    | cons q rest2 =>
      have hrest : ∀ x ∈ q :: rest2, ByteValid x.1 ∧ ByteValid x.2 :=
        fun x hx => h x (List.mem_cons_of_mem p hx)
      have ih2 := ih hrest
      unfold parseQuery at ih2 ⊢
      have henc : encodeValues (p :: q :: rest2) =
          encodePair p ++ 38 :: encodeValues (q :: rest2) := by
        simp [encodeValues, ampJoin]
      rw [henc, splitSegs_append_sep _ _ hsep,
        List.filter_cons_of_pos (by simp [encodePair_ne_nil p])]
      simp only [parseSegs, parseSeg_encodePair p hp.1 hp.2, ih2]


/-- The comma-join of byte-valid strings is byte-valid. -/
theorem commaJoin_byteValid (l : List GoStr) (h : ∀ s ∈ l, ByteValid s) :
    ByteValid (commaJoin l) := by
  induction l with
  | nil => intro b hb; simp [commaJoin] at hb
  | cons x xs ih =>
    cases xs with
    | nil =>
      simpa [commaJoin] using h x (List.mem_cons_self x [])
    | cons y ys =>
      intro b hb
      simp only [commaJoin] at hb
      rw [List.mem_append] at hb
      rcases hb with hb | hb
      · exact h x (List.mem_cons_self x (y :: ys)) b hb
      · rw [List.mem_cons] at hb
        rcases hb with rfl | hb
        · omega
        · exact ih (fun s hs => h s (List.mem_cons_of_mem x hs)) b hb

/-- The decimal rendering of an integer is byte-valid. -/
theorem intToGoStr_byteValid (i : Int) : ByteValid (intToGoStr i) := by
  unfold intToGoStr
  split
  · intro b hb
    rw [List.mem_cons] at hb
    rcases hb with rfl | hb
    · omega
    · have := natToDigits_bytes _ b hb; omega
  · intro b hb
    have := natToDigits_bytes _ b hb; omega

/-- On a fully populated options value `queryValues` lists all six wire
parameters, in `Encode`'s sorted key order. -/
theorem queryValues_populated (o : EprintListOptions)
    (hS : o.Search ≠ []) (hI : o.IDList ≠ []) (hM : o.MaxResults ≠ 0)
    (hSt : o.Start ≠ 0) (hB : o.SortBy ≠ []) (hO : o.SortOrder ≠ []) :
    queryValues o =
      [(goStr "id_list", commaJoin o.IDList),
       (goStr "max_results", intToGoStr o.MaxResults),
       (goStr "search_query", o.Search),
       (goStr "sortBy", o.SortBy),
       (goStr "sortOrder", o.SortOrder),
       (goStr "start", intToGoStr o.Start)] := by
  unfold queryValues
  rw [if_neg hI, if_neg hM, if_neg hS, if_neg hB, if_neg hO, if_neg hSt]
  rfl

/-- **C4.** Round-trip: for a fully populated `EprintListOptions` (all
fields non-zero, strings byte-valid), parsing the encoded query string
back recovers exactly the six parameters with their original field values
— the search string verbatim, the comma-joined id list, and the decimal
pagination fields (which decode back to the original integers); parameter
order in the encoded string is the sorted key order. -/
theorem encode_parse_roundtrip (o : EprintListOptions)
    (hS : o.Search ≠ []) (hI : o.IDList ≠ []) (hM : o.MaxResults ≠ 0)
    (hSt : o.Start ≠ 0) (hB : o.SortBy ≠ []) (hO : o.SortOrder ≠ [])
    (hvS : ByteValid o.Search) (hvI : ∀ s ∈ o.IDList, ByteValid s)
    (hvB : ByteValid o.SortBy) (hvO : ByteValid o.SortOrder) :
    parseQuery (encodeOptions o) =
      some [(goStr "id_list", commaJoin o.IDList),
            (goStr "max_results", intToGoStr o.MaxResults),
            (goStr "search_query", o.Search),
            (goStr "sortBy", o.SortBy),
            (goStr "sortOrder", o.SortOrder),
            (goStr "start", intToGoStr o.Start)] ∧
    goStrToInt (intToGoStr o.MaxResults) = o.MaxResults ∧
    goStrToInt (intToGoStr o.Start) = o.Start := by
  refine ⟨?_, goStrToInt_intToGoStr _, goStrToInt_intToGoStr _⟩
  rw [encodeOptions, queryValues_populated o hS hI hM hSt hB hO]
  apply parseQuery_encodeValues
  intro p hp
  simp only [List.mem_cons] at hp
  rcases hp with rfl | rfl | rfl | rfl | rfl | rfl | hp
  · exact ⟨show ByteValid (goStr "id_list") by decide,
      commaJoin_byteValid o.IDList hvI⟩
  · exact ⟨show ByteValid (goStr "max_results") by decide,
      intToGoStr_byteValid o.MaxResults⟩
  · exact ⟨show ByteValid (goStr "search_query") by decide, hvS⟩
  · exact ⟨show ByteValid (goStr "sortBy") by decide, hvB⟩
  · exact ⟨show ByteValid (goStr "sortOrder") by decide, hvO⟩
  · exact ⟨show ByteValid (goStr "start") by decide,
      intToGoStr_byteValid o.Start⟩
  · simp at hp

/-- **C4 witness.** The round-trip evaluated at a concrete populated
options value. -/
theorem encode_parse_roundtrip_witness :
    (goStr "all:electron" ≠ ([] : GoStr)) ∧
    (parseQuery (encodeOptions
        { Search := goStr "all:electron",
          IDList := [goStr "1234.5678", goStr "hep-th/9901001"],
          MaxResults := 25, Start := 5,
          SortBy := goStr "relevance", SortOrder := goStr "ascending" }) =
      some [(goStr "id_list",
              commaJoin [goStr "1234.5678", goStr "hep-th/9901001"]),
            (goStr "max_results", intToGoStr 25),
            (goStr "search_query", goStr "all:electron"),
            (goStr "sortBy", goStr "relevance"),
            (goStr "sortOrder", goStr "ascending"),
            (goStr "start", intToGoStr 5)] ∧
      goStrToInt (intToGoStr (25 : Int)) = 25 ∧
      goStrToInt (intToGoStr (5 : Int)) = 5) :=
  ⟨by decide,
   encode_parse_roundtrip
     { Search := goStr "all:electron",
       IDList := [goStr "1234.5678", goStr "hep-th/9901001"],
       MaxResults := 25, Start := 5,
       SortBy := goStr "relevance", SortOrder := goStr "ascending" }
     (by decide) (by decide) (by decide) (by decide) (by decide) (by decide)
     (by decide) (by decide) (by decide) (by decide)⟩

/-- **C5.** The defaulting accessors of `QueryOptions`: `StartOrDefault`
returns `Start` when non-negative and `0` otherwise; `SortByOrDefault`
returns `SortBy` when it is one of relevance/lastUpdatedDate/submittedDate
and `"relevance"` otherwise; `SortOrderOrDefault` returns `SortOrder` when
it is ascending/descending and `"descending"` otherwise; and every
accessor result lies in its documented valid set. -/
theorem accessors_default_and_valid (o : QueryOptions) :
    ((0 ≤ o.Start → o.StartOrDefault = o.Start) ∧
     (o.Start < 0 → o.StartOrDefault = 0)) ∧
    ((o.SortBy = goStr "relevance" ∨ o.SortBy = goStr "lastUpdatedDate" ∨
        o.SortBy = goStr "submittedDate" → o.SortByOrDefault = o.SortBy) ∧
     (¬(o.SortBy = goStr "relevance" ∨ o.SortBy = goStr "lastUpdatedDate" ∨
        o.SortBy = goStr "submittedDate") → o.SortByOrDefault = goStr "relevance")) ∧
    ((o.SortOrder = goStr "ascending" ∨ o.SortOrder = goStr "descending" →
        o.SortOrderOrDefault = o.SortOrder) ∧
     (¬(o.SortOrder = goStr "ascending" ∨ o.SortOrder = goStr "descending") →
        o.SortOrderOrDefault = goStr "descending")) ∧
    (0 ≤ o.StartOrDefault) ∧
    (o.SortByOrDefault = goStr "relevance" ∨
     o.SortByOrDefault = goStr "lastUpdatedDate" ∨
     o.SortByOrDefault = goStr "submittedDate") ∧
    (o.SortOrderOrDefault = goStr "ascending" ∨
     o.SortOrderOrDefault = goStr "descending") := by
  unfold QueryOptions.StartOrDefault QueryOptions.SortByOrDefault
    QueryOptions.SortOrderOrDefault DefaultSortBy DefaultSortOrder
  refine ⟨⟨?_, ?_⟩, ⟨?_, ?_⟩, ⟨?_, ?_⟩, ?_, ?_, ?_⟩ <;>
    · split <;> first | omega | tauto

/-- **C5 witness.** The accessors evaluated at a concrete invalid options
value (`Start = -3`, unknown sort keys) and a concrete valid one. -/
theorem accessors_default_and_valid_witness :
    (QueryOptions.StartOrDefault { Start := -3 } = 0) ∧
    (QueryOptions.SortByOrDefault { SortBy := goStr "bogus" } = goStr "relevance") ∧
    (QueryOptions.SortOrderOrDefault { SortOrder := goStr "sideways" } =
      goStr "descending") ∧
    (QueryOptions.StartOrDefault { Start := 7 } = (7 : Int)) := by
  refine ⟨?_, ?_, ?_, ?_⟩
  · exact (accessors_default_and_valid { Start := -3 }).1.2 (by decide)
  · exact (accessors_default_and_valid { SortBy := goStr "bogus" }).2.1.2 (by decide)
  · exact (accessors_default_and_valid
      { SortOrder := goStr "sideways" }).2.2.1.2 (by decide)
  · exact (accessors_default_and_valid { Start := 7 }).1.1 (by decide)

/-- **C6.** `SearchOptions.String` with `All = "quantum computing"` yields
exactly `"all:quantum computing"`, whatever the other fields and whatever
order the map iteration visits the entries in. -/
theorem searchString_all_quantum (o : SearchOptions) (iter : List (GoStr × GoStr))
    (_hiter : iter.Perm (searchPairs o))
    (hall : o.All = goStr "quantum computing") :
    searchString o iter = goStr "all:quantum computing" := by
  rw [searchString, if_pos (by rw [hall]; decide), hall]; decide

/-- **C6 witness.** The concrete evaluation at a populated options value. -/
theorem searchString_all_quantum_witness :
    searchString
        { All := goStr "quantum computing", Title := goStr "ignored" }
        (searchPairs { All := goStr "quantum computing", Title := goStr "ignored" }) =
      goStr "all:quantum computing" :=
  searchString_all_quantum _ _ (List.Perm.refl _) rfl

/-- **C7.** `SearchOptions.String` with `Title = "foo"`, `Author = "bar"`
and every other field empty yields `"ti:foo"` and `"au:bar"` joined by
`" AND "`, in one of the two orders (map iteration order is unspecified). -/
theorem searchString_title_author (o : SearchOptions) (iter : List (GoStr × GoStr))
    (hiter : iter.Perm (searchPairs o))
    (ht : o.Title = goStr "foo") (ha : o.Author = goStr "bar")
    (habs : o.Abstract = []) (hjr : o.JournalReference = [])
    (hcat : o.Category = []) (hall : o.All = []) :
    searchString o iter = goStr "ti:foo AND au:bar" ∨
    searchString o iter = goStr "au:bar AND ti:foo" := by
  have hfilter : (searchPairs o).filter (fun p => p.2 ≠ []) =
      [(goStr "ti", goStr "foo"), (goStr "au", goStr "bar")] := by
    rw [searchPairs, ht, ha, habs, hjr, hcat]; decide
  have h2 := (hiter.filter (fun p => p.2 ≠ []))
  rw [hfilter] at h2
  rw [searchString, if_neg (by rw [hall]; decide)]
  rcases perm_pair_cases _ _ _ h2 with hc | hc <;> rw [hc]
  · exact Or.inl (by decide)
  · exact Or.inr (by decide)

/-- **C7 witness.** A concrete evaluation with the iteration order equal
to the source order of `searchPairs`. -/
theorem searchString_title_author_witness :
    searchString { Title := goStr "foo", Author := goStr "bar" }
        (searchPairs { Title := goStr "foo", Author := goStr "bar" }) =
      goStr "ti:foo AND au:bar" ∨
    searchString { Title := goStr "foo", Author := goStr "bar" }
        (searchPairs { Title := goStr "foo", Author := goStr "bar" }) =
      goStr "au:bar AND ti:foo" :=
  searchString_title_author _ _ (List.Perm.refl _) rfl rfl rfl rfl rfl rfl

/-- **C9.** `SearchOptions.String` on the all-empty options value returns
the empty string, in every map iteration order: no stray `AND` separators
and no empty `key:` clauses appear. -/
theorem searchString_empty (o : SearchOptions) (iter : List (GoStr × GoStr))
    (hiter : iter.Perm (searchPairs o))
    (ht : o.Title = []) (ha : o.Author = []) (habs : o.Abstract = [])
    (hjr : o.JournalReference = []) (hcat : o.Category = [])
    (hall : o.All = []) :
    searchString o iter = [] := by
  have hfilter : (searchPairs o).filter (fun p => p.2 ≠ []) = [] := by
    rw [searchPairs, ht, ha, habs, hjr, hcat]; decide
  have h2 := hiter.filter (fun p => p.2 ≠ [])
  rw [hfilter] at h2
  rw [searchString, if_neg (by rw [hall]; decide), h2.eq_nil]
  rfl

/-- **C9 witness.** The concrete all-empty evaluation. -/
theorem searchString_empty_witness :
    searchString {} (searchPairs {}) = [] :=
  searchString_empty _ _ (List.Perm.refl _) rfl rfl rfl rfl rfl rfl

/-- **C8.** A nil options value passed to the query-URL builder yields a
URL with an empty query string and no error, and the nil-pointer early
return inside `addOptions` likewise leaves the URL untouched. -/
theorem clientUrl_nil_options (name : GoStr) (u : UrlModel) :
    clientUrl name none = .ok { Path := name, RawQuery := [] } ∧
    addOptions u none = .ok u := ⟨rfl, rfl⟩

/-- `clientUrl` never fails: its result is always `urlFor`. -/
theorem clientUrl_eq_urlFor (name : GoStr) (opt : Option EprintListOptions) :
    clientUrl name opt = .ok (urlFor name opt) := by
  cases opt <;> rfl

/-- **C1 counterexample.** At `MaxResults = -5` (which is `≤ 0`), the
encoded query string carries `max_results=-5`, not the configured default
`1000`: the `MaxResultsOrDefault` normalization is not applied on the
encoding path, which works from the raw field through the `url` tags. -/
theorem maxResults_default_not_encoded :
    (({ MaxResults := -5 } : EprintListOptions).MaxResults ≤ 0) ∧
    encodeOptions { MaxResults := -5 } = goStr "max_results=-5" ∧
    lookupVal (goStr "max_results") (queryValues { MaxResults := -5 }) =
      some (goStr "-5") ∧
    lookupVal (goStr "max_results") (queryValues { MaxResults := -5 }) ≠
      some (intToGoStr DefaultMaxResults) := by decide

/-- **C1 amended.** The accessor `MaxResultsOrDefault` returns
`DefaultMaxResults` whenever `MaxResults <= 0`; the encoding path,
however, uses the raw field: a zero `MaxResults` is omitted from the
query string entirely (`omitempty`) and a non-zero (including negative)
`MaxResults` is encoded verbatim. -/
theorem maxResults_accessor_and_encoding (o : EprintListOptions) :
    (o.MaxResults ≤ 0 →
      o.toQueryOptions.MaxResultsOrDefault = DefaultMaxResults) ∧
    (o.MaxResults = 0 →
      lookupVal (goStr "max_results") (queryValues o) = none) ∧
    (o.MaxResults ≠ 0 →
      lookupVal (goStr "max_results") (queryValues o) =
        some (intToGoStr o.MaxResults)) := by
  refine ⟨?_, ?_, ?_⟩
  · intro h
    unfold QueryOptions.MaxResultsOrDefault
    rw [if_pos (by omega)]
  · intro h
    by_cases hI : o.IDList = [] <;> by_cases hS : o.Search = [] <;>
      by_cases hB : o.SortBy = [] <;> by_cases hO : o.SortOrder = [] <;>
      by_cases hSt : o.Start = 0 <;>
      simp +decide [queryValues, lookupVal, h, hI, hS, hB, hO, hSt]
  · intro h
    by_cases hI : o.IDList = [] <;>
      simp +decide [queryValues, lookupVal, h, hI]

/-- **C1 amended witness.** The amended behaviour at `MaxResults = -5`
(accessor defaults, encoder passes `-5` through) and `MaxResults = 0`
(encoder omits the parameter). -/
theorem maxResults_accessor_and_encoding_witness :
    (({ MaxResults := -5 } : EprintListOptions).toQueryOptions.MaxResultsOrDefault =
      DefaultMaxResults) ∧
    (lookupVal (goStr "max_results") (queryValues {}) = none) ∧
    (lookupVal (goStr "max_results") (queryValues { MaxResults := -5 }) =
      some (intToGoStr (-5))) :=
  ⟨(maxResults_accessor_and_encoding { MaxResults := -5 }).1 (by decide),
   (maxResults_accessor_and_encoding {}).2.1 rfl,
   (maxResults_accessor_and_encoding { MaxResults := -5 }).2.2 (by decide)⟩

/-- **C2.** With the transport/decoder returning a successfully decoded
feed, `Get` fails with `ErrEprintNotFound` exactly when the feed has zero
entries, `List` fails with `ErrEprintNotFound` exactly when its feed has
zero entries, and on a non-empty feed `List` returns the feed's full
ordered entry sequence unchanged. -/
theorem get_list_notFound_iff (respond : UrlModel → Except ArxivError EprintsFeed)
    (id : GoStr) (opt : Option EprintListOptions) (feedG feedL : EprintsFeed)
    (hG : respond (urlFor (goStr "query") (some (getOptions id))) = .ok feedG)
    (hL : respond (urlFor (goStr "query") opt) = .ok feedL) :
    ((eprintsGet respond id = .error .eprintNotFound) ↔ feedG.Entry = []) ∧
    ((eprintsList respond opt = .error .eprintNotFound) ↔ feedL.Entry = []) ∧
    (feedL.Entry ≠ [] → eprintsList respond opt = .ok feedL.Entry) := by
  refine ⟨?_, ?_, ?_⟩
  · simp only [eprintsGet, clientUrl_eq_urlFor, hG]
    cases hE : feedG.Entry <;> simp [hE]
  · simp only [eprintsList, clientUrl_eq_urlFor, hL]
    cases hE : feedL.Entry <;> simp [hE]
  · intro hne
    simp only [eprintsList, clientUrl_eq_urlFor, hL]
    cases hE : feedL.Entry with
    | nil => exact absurd hE hne
    | cons e rest => simp [← hE]

/-- **C2 witness.** `List` on a one-entry feed returns that entry list;
`Get` on an empty feed fails with `ErrEprintNotFound`. -/
theorem get_list_notFound_iff_witness :
    eprintsList (fun _ => .ok { Entry := [{ ID := goStr "1" }] }) none =
      .ok [{ ID := goStr "1" }] ∧
    eprintsGet (fun _ => .ok {}) (goStr "123") = .error .eprintNotFound :=
  ⟨(get_list_notFound_iff (fun _ => .ok { Entry := [{ ID := goStr "1" }] })
      (goStr "123") none { Entry := [{ ID := goStr "1" }] }
      { Entry := [{ ID := goStr "1" }] } rfl rfl).2.2 (by decide),
   (get_list_notFound_iff (fun _ => .ok {}) (goStr "123") none {} {}
      rfl rfl).1.mpr rfl⟩

/-- **C3.** `Get(id)` builds an `EprintListOptions` whose `IDList` is
exactly `[id]` with every other field zero (no validation of the id), the
request it issues is the "query" route with those options encoded, and
when the decoded feed is non-empty it returns the feed's first entry with
its field values intact. -/
theorem get_single_id_first_entry
    (respond : UrlModel → Except ArxivError EprintsFeed)
    (id : GoStr) (feed : EprintsFeed) (e : Eprint) (rest : List Eprint)
    (h : respond (urlFor (goStr "query") (some (getOptions id))) = .ok feed)
    (hfe : feed.Entry = e :: rest) :
    (getOptions id).IDList = [id] ∧
    (getOptions id).Search = [] ∧
    (getOptions id).toQueryOptions = {} ∧
    eprintsGet respond id = .ok e := by
  refine ⟨rfl, rfl, rfl, ?_⟩
  simp only [eprintsGet, clientUrl_eq_urlFor, h, hfe]

/-- **C3 witness.** The spec example: a feed whose single entry has id
`"123"`, title `"Test"` and one author `"A. Author"`; `Get("123")`
returns that entry with those exact field values. -/
theorem get_single_id_first_entry_witness :
    (getOptions (goStr "123")).IDList = [goStr "123"] ∧
    (getOptions (goStr "123")).Search = [] ∧
    (getOptions (goStr "123")).toQueryOptions = {} ∧
    eprintsGet (fun _ => .ok testFeed123) (goStr "123") = .ok testEprint123 :=
  get_single_id_first_entry _ (goStr "123") _ _ [] rfl rfl

/-- **C10.** The static lookup tables are mutually consistent: every key
of `Subcategories` is a key of `Subjects`, every subject has a
subcategory entry, and every subcategory list is non-empty. -/
theorem subjects_subcategories_consistent :
    (∀ p ∈ Subcategories, p.1 ∈ Subjects.map Prod.fst) ∧
    (∀ p ∈ Subjects, ∃ q ∈ Subcategories, q.1 = p.1 ∧ q.2 ≠ []) ∧
    (∀ p ∈ Subcategories, p.2 ≠ []) := by decide

end Arxiv
